import Mathlib

/-!
Verification of the `leapseconddata` library (UTC/TAI conversion backed by a
leap-second table).  The definitions below are a shallow embedding of
`leapseconddata/__init__.py`: instants are modelled as a wall-clock reading in
whole microseconds since the NTP epoch (1900-01-01 UTC) together with a
timescale tag and the `fold` (repeated-second) flag, mirroring Python's
`datetime` semantics for the operations the library uses (fixed-offset
timezones only).  Fallible operations return `Except LSError`; comparing a
naive with an aware instant is the `typeError` failure, exactly as in Python.
-/

/-- One second, in microseconds (the resolution of Python `datetime`). -/
def SEC : Int := 1000000

/-- Timescale tag of an instant: Python's `tzinfo` restricted to the values the
library distinguishes: `None` (naive), `datetime.timezone.utc`, the module's
`tai` sentinel, and any other fixed-offset timezone (offset in microseconds). -/
inductive Tz
  | naive
  | utc
  | tai
  | fixed (offset : Int)
deriving DecidableEq, Repr

/-- `tzinfo.utcoffset`: `none` for a naive instant, otherwise the fixed offset. -/
def Tz.utcoffset : Tz → Option Int
  | Tz.naive => Option.none
  | Tz.utc => some 0
  | Tz.tai => some 0
  | Tz.fixed o => some o

/-- A Python `datetime`: wall-clock reading (microseconds since 1900-01-01 as
read on the clock face), timescale tag, and the `fold` flag. -/
structure DT where
  wall : Int
  tz : Tz
  fold : Bool
deriving DecidableEq, Repr

/-- Absolute position on the time line (wall minus UTC offset); `none` for a
naive instant. -/
def DT.absUS (d : DT) : Option Int := d.tz.utcoffset.map (fun o => d.wall - o)

/-- Errors of the library: `validity` is `ValidityError`, `invalidArgument` the
`ValueError` raised by `tai_to_utc`, `typeError` Python's error on comparing
naive with aware datetimes, `invalidHash` is `InvalidHashError` and
`invalidContent` is `InvalidContentError`. -/
inductive LSError
  | validity (msg : String)
  | invalidArgument (msg : String)
  | typeError
  | invalidHash (msg : String)
  | invalidContent (msg : String)
deriving DecidableEq, Repr

instance (ε α : Type) [DecidableEq ε] [DecidableEq α] : DecidableEq (Except ε α) :=
  fun a b =>
    match a, b with
    | .ok x, .ok y =>
      if h : x = y then Decidable.isTrue (by rw [h])
      else Decidable.isFalse (by intro hc; injection hc; exact h (by assumption))
    | .error x, .error y =>
      if h : x = y then Decidable.isTrue (by rw [h])
      else Decidable.isFalse (by intro hc; injection hc; exact h (by assumption))
    | .ok _, .error _ => Decidable.isFalse (by intro hc; exact Except.noConfusion hc)
    | .error _, .ok _ => Decidable.isFalse (by intro hc; exact Except.noConfusion hc)

/-- Python `a < b` on datetimes: aware instants compare by absolute position,
naive by wall clock; mixing naive and aware raises `TypeError`.  The `fold`
flag is ignored by comparisons of fixed-offset datetimes. -/
def dtLt (a b : DT) : Except LSError Bool :=
  match a.absUS, b.absUS with
  | some x, some y => .ok (decide (x < y))
  | Option.none, Option.none => .ok (decide (a.wall < b.wall))
  | _, _ => .error LSError.typeError

/-- Python `a > b` on datetimes. -/
def dtGt (a b : DT) : Except LSError Bool := dtLt b a

/-- `datetime + timedelta`: shifts the wall clock, keeps the tag, clears `fold`. -/
def dtAddUS (d : DT) (t : Int) : DT := ⟨d.wall + t, d.tz, false⟩

/-- `datetime - timedelta`: shifts the wall clock, keeps the tag, clears `fold`. -/
def dtSubUS (d : DT) (t : Int) : DT := ⟨d.wall - t, d.tz, false⟩

/-- `datetime.replace(tzinfo=...)`: changes the tag only, keeps wall and fold. -/
def DT.replaceTz (d : DT) (tz : Tz) : DT := ⟨d.wall, tz, d.fold⟩

/-- `datetime.replace(fold=...)`. -/
def DT.replaceFold (d : DT) (f : Bool) : DT := ⟨d.wall, d.tz, f⟩

/-- `datetime_is_tai`: true iff the instant carries the TAI tag
(`tzname() == "TAI"`). -/
def datetime_is_tai (when : DT) : Bool := decide (when.tz = Tz.tai)

/-- `LeapSecondInfo`: UTC timestamp just after the leap second, and the new
TAI-UTC offset (microseconds). -/
structure LeapSecondInfo where
  start : DT
  tai_offset : Int
deriving DecidableEq, Repr

/-- `LeapSecondData`: the table of leap seconds plus validity metadata. -/
structure LeapSecondData where
  leap_seconds : List LeapSecondInfo
  valid_until : Option DT := Option.none
  last_updated : Option DT := Option.none
deriving DecidableEq, Repr

/-- `LeapSecondData._utc_datetime`: an aware non-UTC instant is converted with
`astimezone(utc)` (absolute position, UTC tag, fold cleared); naive and UTC
instants are returned unchanged. -/
def utc_datetime (when : DT) : DT :=
  match when.tz with
  | Tz.naive => when
  | Tz.utc => when
  | Tz.tai => ⟨when.wall, Tz.utc, false⟩
  | Tz.fixed o => ⟨when.wall - o, Tz.utc, false⟩

/-- Zero-pad a decimal rendering to width 2 (`%m`, `%d`). -/
def pad2 (n : Nat) : String := if n < 10 then "0" ++ toString n else toString n

/-- Zero-pad a decimal rendering to width 4 (`%Y`). -/
def pad4 (n : Nat) : String :=
  if n < 10 then "000" ++ toString n
  else if n < 100 then "00" ++ toString n
  else if n < 1000 then "0" ++ toString n
  else toString n

/-- Proleptic Gregorian civil date from a count of days since 1900-01-01
(the NTP epoch), via the standard era-based algorithm. -/
def civilFromDays (days1900 : Int) : Int × Nat × Nat :=
  let z : Int := days1900 + 693901
  let era : Int := Int.fdiv z 146097
  let doe : Nat := (z - era * 146097).toNat
  let yoe : Nat := (doe - doe / 1460 + doe / 36524 - doe / 146096) / 365
  let y : Int := (yoe : Int) + era * 400
  let doy : Nat := doe - (365 * yoe + yoe / 4 - yoe / 100)
  let mp : Nat := (5 * doy + 2) / 153
  let d : Nat := doy - (153 * mp + 2) / 5 + 1
  let m : Nat := if mp < 10 then mp + 3 else mp - 9
  (if m ≤ 2 then y + 1 else y, m, d)

/-- `f"{dt:%Y-%m-%d}"`: the instant's wall-clock date. -/
def fmtYMD (d : DT) : String :=
  let days : Int := Int.fdiv d.wall (86400 * SEC)
  let c := civilFromDays days
  pad4 c.1.toNat ++ "-" ++ pad2 c.2.1 ++ "-" ++ pad2 c.2.2

/-- `LeapSecondData._check_validity` (with the query instant supplied): the
message explaining invalidity, or `none` when the data is valid. -/
def check_validity_msg (lsd : LeapSecondData) (when : DT) :
    Except LSError (Option String) :=
  match lsd.valid_until with
  | Option.none => .ok (some "Data validity unknown")
  | some vu =>
    match dtGt when vu with
    | .error e => .error e
    | .ok true => .ok (some ("Data only valid until " ++ fmtYMD vu))
    | .ok false => .ok Option.none

/-- The scan loop of `LeapSecondData.tai_offset`: walk the records carrying the
previous offset; at the first record whose (possibly TAI-shifted) start exceeds
`when`, return the carried offset. -/
def tai_offset_loop (when : DT) (is_tai : Bool) :
    Int → List LeapSecondInfo → Except LSError Int
  | old, [] => .ok old
  | old, ls :: rest =>
    let start := if is_tai then dtAddUS ls.start (ls.tai_offset - SEC) else ls.start
    match dtLt when start with
    | .error e => .error e
    | .ok true => .ok old
    | .ok false => tai_offset_loop when is_tai ls.tai_offset rest

/-- `LeapSecondData.tai_offset`: TAI-UTC offset (microseconds) in force at
`when`. -/
def tai_offset (lsd : LeapSecondData) (when : DT) (check_validity : Bool) :
    Except LSError Int :=
  let is_tai := datetime_is_tai when
  let when := if ¬ is_tai then utc_datetime when else when
  match (if check_validity then check_validity_msg lsd when else .ok Option.none) with
  | .error e => .error e
  | .ok (some msg) => .error (LSError.validity msg)
  | .ok Option.none =>
    if lsd.leap_seconds = [] then .ok 0
    else tai_offset_loop when is_tai 0 lsd.leap_seconds

/-- `LeapSecondData.to_tai`: convert to TAI; a TAI instant is returned
unchanged, anything else is normalized to UTC and shifted by the offset. -/
def to_tai (lsd : LeapSecondData) (when : DT) (check_validity : Bool) :
    Except LSError DT :=
  if datetime_is_tai when then .ok when
  else
    let when := utc_datetime when
    match tai_offset lsd when check_validity with
    | .error e => .error e
    | .ok off => .ok ((dtAddUS when off).replaceTz Tz.tai)

/-- `LeapSecondData.is_leap_second`: normalize to TAI (a non-TAI instant is
converted with `to_tai` and shifted one second forward when `fold` is set) and
compare the offsets in force at `when` and one second earlier. -/
def is_leap_second (lsd : LeapSecondData) (when : DT) (check_validity : Bool) :
    Except LSError Bool :=
  match (if when.tz ≠ Tz.tai then
          (to_tai lsd when check_validity).map
            (fun t => dtAddUS t (if when.fold then SEC else 0))
         else .ok when) with
  | .error e => .error e
  | .ok w =>
    match tai_offset lsd w check_validity with
    | .error e => .error e
    | .ok off1 =>
      match tai_offset lsd (dtSubUS w SEC) check_validity with
      | .error e => .error e
      | .ok off2 => .ok (off1 != off2)

/-- `LeapSecondData.tai_to_utc`: a non-naive, non-TAI instant is rejected;
a naive instant is tagged TAI; the result is `when - offset` tagged UTC, with
`fold` set when `when` is the inserted leap second. -/
def tai_to_utc (lsd : LeapSecondData) (when : DT) (check_validity : Bool) :
    Except LSError DT :=
  if when.tz ≠ Tz.naive ∧ when.tz ≠ Tz.tai then
    .error (LSError.invalidArgument "Input timestamp is not TAI or naive")
  else
    let when := if when.tz = Tz.naive then when.replaceTz Tz.tai else when
    match tai_offset lsd when check_validity with
    | .error e => .error e
    | .ok off =>
      let result := (dtSubUS when off).replaceTz Tz.utc
      match is_leap_second lsd when check_validity with
      | .error e => .error e
      | .ok b => .ok (if b then result.replaceFold true else result)

/-- `_from_ntp_epoch`: NTP seconds to a UTC-tagged instant. -/
def from_ntp_epoch (secs : Int) : DT := ⟨secs * SEC, Tz.utc, false⟩

/-- ASCII whitespace, as stripped and split on by Python `bytes` methods. -/
def isSpaceByte (b : Nat) : Bool := b = 32 || b = 9 || b = 10 || b = 13 || b = 11 || b = 12

/-- `bytes.strip()`: drop leading and trailing ASCII whitespace. -/
def stripBytes (row : List Nat) : List Nat :=
  ((row.dropWhile isSpaceByte).reverse.dropWhile isSpaceByte).reverse

/-- `bytes.split()` accumulator: build tokens separated by runs of whitespace. -/
def splitWSGo : List Nat → List Nat → List (List Nat)
  | cur, [] => if cur.isEmpty then [] else [cur.reverse]
  | cur, b :: rest =>
    if isSpaceByte b then
      if cur.isEmpty then splitWSGo [] rest else cur.reverse :: splitWSGo [] rest
    else splitWSGo (b :: cur) rest

/-- `bytes.split()`: whitespace-separated tokens, empties discarded. -/
def splitWS (row : List Nat) : List (List Nat) := splitWSGo [] row

/-- Decimal digit value of an ASCII byte. -/
def digitVal (b : Nat) : Option Nat :=
  if 48 ≤ b ∧ b ≤ 57 then some (b - 48) else Option.none

/-- Accumulate decimal digits; fails on any non-digit byte. -/
def parseDigitsGo (acc : Nat) : List Nat → Option Nat
  | [] => some acc
  | b :: rest =>
    match digitVal b with
    | some d => parseDigitsGo (acc * 10 + d) rest
    | Option.none => Option.none

/-- Python `int(token)` for a whitespace-free token: optional sign then
decimal digits. -/
def parseIntBytes : List Nat → Option Int
  | [] => Option.none
  | 43 :: rest => if rest.isEmpty then Option.none
                  else (parseDigitsGo 0 rest).map (fun n => (n : Int))
  | 45 :: rest => if rest.isEmpty then Option.none
                  else (parseDigitsGo 0 rest).map (fun n => -(n : Int))
  | tok => (parseDigitsGo 0 tok).map (fun n => (n : Int))

/-- Hexadecimal digit value of an ASCII byte. -/
def hexVal (b : Nat) : Option Nat :=
  if 48 ≤ b ∧ b ≤ 57 then some (b - 48)
  else if 97 ≤ b ∧ b ≤ 102 then some (b - 87)
  else if 65 ≤ b ∧ b ≤ 70 then some (b - 55)
  else Option.none

/-- Accumulate hexadecimal digits; fails on any non-hex byte. -/
def parseHexGo (acc : Nat) : List Nat → Option Nat
  | [] => some acc
  | b :: rest =>
    match hexVal b with
    | some d => parseHexGo (acc * 16 + d) rest
    | Option.none => Option.none

/-- Python `int(token, 16)` for a plain hex token. -/
def parseHexBytes : List Nat → Option Nat
  | [] => Option.none
  | tok => parseHexGo 0 tok

/-- `f"{i:08x}"`: lowercase hex, zero-padded to at least eight digits. -/
def toHex8 (n : Nat) : String :=
  let s := String.mk (Nat.toDigits 16 n)
  if s.length < 8 then String.mk (List.replicate (8 - s.length) '0') ++ s else s

/-- 32-bit modulus for the SHA-1 arithmetic. -/
def M32 : Nat := 4294967296

/-- Rotate a 32-bit word left by `k` bits. -/
def rotl (k n : Nat) : Nat := (n * 2 ^ k) % M32 + n / 2 ^ (32 - k)

/-- SHA-1 round function for round `t`. -/
def sha1F (t b c d : Nat) : Nat :=
  if t < 20 then (b &&& c) ||| ((b ^^^ (M32 - 1)) &&& d)
  else if t < 40 then b ^^^ c ^^^ d
  else if t < 60 then (b &&& c) ||| (b &&& d) ||| (c &&& d)
  else b ^^^ c ^^^ d

/-- SHA-1 round constant for round `t`. -/
def sha1K (t : Nat) : Nat :=
  if t < 20 then 1518500249
  else if t < 40 then 1859775393
  else if t < 60 then 2400959708
  else 3395469782

/-- Pack bytes into big-endian 32-bit words (four bytes each). -/
def bytesToWords : List Nat → List Nat
  | b0 :: b1 :: b2 :: b3 :: rest =>
    (b0 * 16777216 + b1 * 65536 + b2 * 256 + b3) :: bytesToWords rest
  | _ => []

/-- Extend the 16 block words by `k` more schedule words. -/
def sha1ExtendGo (acc : List Nat) : Nat → List Nat
  | 0 => acc
  | Nat.succ k =>
    let n := acc.length
    let w := rotl 1 ((acc.getD (n - 3) 0) ^^^ (acc.getD (n - 8) 0) ^^^
                     (acc.getD (n - 14) 0) ^^^ (acc.getD (n - 16) 0))
    sha1ExtendGo (acc ++ [w]) k

/-- Run the 80 SHA-1 rounds over the schedule words. -/
def sha1RoundGo : List Nat → Nat → Nat × Nat × Nat × Nat × Nat → Nat × Nat × Nat × Nat × Nat
  | [], _, st => st
  | w :: rest, t, (a, b, c, d, e) =>
    let temp := (rotl 5 a + sha1F t b c d + e + sha1K t + w) % M32
    sha1RoundGo rest (t + 1) (temp, a, rotl 30 b, c, d)

/-- Compress one 64-byte block into the running SHA-1 state. -/
def sha1Block (h : Nat × Nat × Nat × Nat × Nat) (block : List Nat) :
    Nat × Nat × Nat × Nat × Nat :=
  let ws := sha1ExtendGo (bytesToWords block) 64
  match h, sha1RoundGo ws 0 h with
  | (h0, h1, h2, h3, h4), (a, b, c, d, e) =>
    ((h0 + a) % M32, (h1 + b) % M32, (h2 + c) % M32, (h3 + d) % M32, (h4 + e) % M32)

/-- Big-endian byte rendering of `n` in `k` bytes. -/
def natToBytesBE (k n : Nat) : List Nat :=
  (List.range k).map (fun i => n / 2 ^ (8 * (k - 1 - i)) % 256)

/-- SHA-1 padding: `0x80`, zeros to 56 mod 64, then the 64-bit bit length. -/
def sha1Pad (msg : List Nat) : List Nat :=
  let L := msg.length
  let z := (119 - L % 64) % 64
  msg ++ [128] ++ List.replicate z 0 ++ natToBytesBE 8 (8 * L)

/-- Split into 64-byte chunks, with fuel bounding the recursion. -/
def chunksGo : Nat → List Nat → List (List Nat)
  | 0, _ => []
  | _, [] => []
  | Nat.succ fuel, l => l.take 64 :: chunksGo fuel (l.drop 64)

/-- `hashlib.sha1(msg).hexdigest()`. -/
def sha1hex (msg : List Nat) : String :=
  let padded := sha1Pad msg
  let blocks := chunksGo padded.length padded
  match blocks.foldl sha1Block
      (1732584193, 4023233417, 2562383102, 271733878, 3285377520) with
  | (h0, h1, h2, h3, h4) =>
    toHex8 h0 ++ toHex8 h1 ++ toHex8 h2 ++ toHex8 h3 ++ toHex8 h4

/-- `LeapSecondData._parse_content_hash`: hex words after the `#h` marker,
re-rendered as the concatenation of zero-padded 8-digit groups. -/
def parse_content_hash (row : List Nat) : Except LSError String :=
  match ((splitWS row).drop 1).mapM parseHexBytes with
  | some hs => .ok (String.join (hs.map toHex8))
  | Option.none => .error (LSError.invalidContent "Failed to parse")

/-- Parser state of `from_open_file`: records and metadata collected so far,
the bytes fed to the running SHA-1, and the declared content hash. -/
structure LoaderState where
  leap_seconds : List LeapSecondInfo
  valid_until : Option DT
  last_updated : Option DT
  hashed : List Nat
  content_hash : Option String
deriving DecidableEq, Repr

/-- Initial parser state. -/
def initLoaderState : LoaderState :=
  ⟨[], Option.none, Option.none, [], Option.none⟩

/-- One iteration of the `from_open_file` line loop. -/
def processLine (st : LoaderState) (row_ws : List Nat) : Except LSError LoaderState :=
  let row := stripBytes row_ws
  if [35, 104].isPrefixOf row then
    match parse_content_hash row with
    | .ok h => .ok { st with content_hash := some h }
    | .error e => .error e
  else if [35, 64].isPrefixOf row then
    match (splitWS row).drop 1 with
    | [] => .error (LSError.invalidContent "Failed to parse")
    | tok :: _ =>
      match parseIntBytes tok with
      | some v => .ok { st with hashed := st.hashed ++ tok,
                                valid_until := some (from_ntp_epoch v) }
      | Option.none => .error (LSError.invalidContent "Failed to parse")
  else if [35, 36].isPrefixOf row then
    match (splitWS row).drop 1 with
    | [] => .error (LSError.invalidContent "Failed to parse")
    | tok :: _ =>
      match parseIntBytes tok with
      | some v => .ok { st with hashed := st.hashed ++ tok,
                                last_updated := some (from_ntp_epoch v) }
      | Option.none => .error (LSError.invalidContent "Failed to parse")
  else
    match splitWS (stripBytes (row.takeWhile (fun b => b ≠ 35))) with
    | [a, b] =>
      match parseIntBytes a, parseIntBytes b with
      | some w, some o =>
        .ok { st with hashed := st.hashed ++ a ++ b,
                      leap_seconds := st.leap_seconds ++ [⟨from_ntp_epoch w, o * SEC⟩] }
      | _, _ => .error (LSError.invalidContent "Failed to parse")
    | _ => .ok st

/-- The `from_open_file` line loop over the whole stream. -/
def processLines : LoaderState → List (List Nat) → Except LSError LoaderState
  | st, [] => .ok st
  | st, l :: ls =>
    match processLine st l with
    | .error e => .error e
    | .ok st1 => processLines st1 ls

/-- `LeapSecondData.from_open_file`: parse all lines, then (when `check_hash`)
demand a declared hash equal to the SHA-1 of the hashed token bytes. -/
def from_open_file (lines : List (List Nat)) (check_hash : Bool) :
    Except LSError LeapSecondData :=
  match processLines initLoaderState lines with
  | .error e => .error e
  | .ok st =>
    if check_hash then
      match st.content_hash with
      | Option.none => .error (LSError.invalidHash "No #h line found")
      | some ch =>
        let digest := sha1hex st.hashed
        if digest ≠ ch then
          .error (LSError.invalidHash
            ("Hash didn\x27t match.  Expected " ++ String.take ch 8 ++
             "..., got " ++ String.take digest 8 ++ "..."))
        else .ok ⟨st.leap_seconds, st.valid_until, st.last_updated⟩
    else .ok ⟨st.leap_seconds, st.valid_until, st.last_updated⟩

/-- Split a byte stream into lines the way iterating a binary file does:
after each newline byte, keeping the newline. -/
def splitLinesGo (cur : List Nat) : List Nat → List (List Nat)
  | [] => if cur.isEmpty then [] else [cur.reverse]
  | b :: rest =>
    if b = 10 then (cur.reverse ++ [10]) :: splitLinesGo [] rest
    else splitLinesGo (b :: cur) rest

/-- `LeapSecondData.from_data`: parse an in-memory byte string. -/
def from_data (data : List Nat) (check_hash : Bool) : Except LSError LeapSecondData :=
  from_open_file (splitLinesGo [] data) check_hash

/-- ASCII bytes of a string literal (used to write concrete inputs readably). -/
def strBytes (s : String) : List Nat := s.data.map Char.toNat

/-- Embed a list of `(start, offset)` pairs (microseconds, UTC-tagged starts,
as the loader constructs them) into `LeapSecondInfo` records. -/
def embedRecs (recs : List (Int × Int)) : List LeapSecondInfo :=
  recs.map (fun p => ⟨⟨p.1, Tz.utc, false⟩, p.2⟩)

/-- Comparison key of a record for a UTC-timescale query: its start. -/
def utcKey (p : Int × Int) : Int := p.1

/-- Comparison key of a record for a TAI-timescale query: start plus offset
minus one second. -/
def taiKey (p : Int × Int) : Int := p.1 + p.2 - SEC

/-- Pure form of the `tai_offset` scan: carry the previous offset, stop at the
first record whose key exceeds the query. -/
def scanOff (key : Int × Int → Int) (old w : Int) : List (Int × Int) → Int
  | [] => old
  | p :: rest => if w < key p then old else scanOff key p.2 w rest

/-- Offset of the last element of `l`, or `a` if there is none. -/
def lastOff (a : Int) (l : List (Int × Int)) : Int :=
  ((l.getLast?).map (fun p => p.2)).getD a

/-- The specification's description of a UTC-timescale lookup: the offset of
the last record whose start is at most the query, else zero. -/
def lastOffsetAtUtc (recs : List (Int × Int)) (w : Int) : Int :=
  (((recs.filter (fun p => decide (utcKey p ≤ w))).getLast?).map (fun p => p.2)).getD 0

/-- The specification's description of a TAI-timescale lookup: the offset of
the last record whose TAI-space threshold is at most the query, else zero. -/
def lastOffsetAtTai (recs : List (Int × Int)) (v : Int) : Int :=
  (((recs.filter (fun p => decide (taiKey p ≤ v))).getLast?).map (fun p => p.2)).getD 0

/-- Well-formedness of the offsets of a leap-second table relative to the
offset `prev` in force before it: each record's offset exceeds the previous
offset by at least one second (a genuine leap-second insertion). -/
def offsetsOK : Int → List (Int × Int) → Bool
  | _, [] => true
  | prev, p :: rest => decide (prev + SEC ≤ p.2) && offsetsOK p.2 rest

/-- Claim-side per-line classifier for the amended record-order statement: the
record contributed by a line, if any (marker lines and non-two-token lines
contribute none). -/
def dataRecordOf (row_ws : List Nat) : Option LeapSecondInfo :=
  let row := stripBytes row_ws
  if [35, 104].isPrefixOf row ∨ [35, 64].isPrefixOf row ∨ [35, 36].isPrefixOf row then
    Option.none
  else
    match splitWS (stripBytes (row.takeWhile (fun b => b ≠ 35))) with
    | [a, b] =>
      match parseIntBytes a, parseIntBytes b with
      | some w, some o => some ⟨from_ntp_epoch w, o * SEC⟩
      | _, _ => Option.none
    | _ => Option.none

/-- The 1972 prefix of the published table: offsets 10 s from 1972-01-01 and
11 s from 1972-07-01 (starts in NTP seconds 2272060800 and 2287785600). -/
def recs72 : List (Int × Int) :=
  [(2272060800 * SEC, 10 * SEC), (2287785600 * SEC, 11 * SEC)]

/-- That table with no validity metadata. -/
def lsd72 : LeapSecondData := ⟨embedRecs recs72, Option.none, Option.none⟩

/-- That table declared valid until 2024-12-28 (day 45652 after 1900-01-01). -/
def lsdVal : LeapSecondData :=
  ⟨embedRecs recs72, some ⟨3944332800 * SEC, Tz.utc, false⟩, Option.none⟩

/-- A small table with a leap second at wall-clock second 2000 (offset 10 s
before, 11 s after), for checking behaviour at the boundary. -/
def lsdC4 : LeapSecondData :=
  ⟨embedRecs [(1000 * SEC, 10 * SEC), (2000 * SEC, 11 * SEC)], Option.none, Option.none⟩

/-- The offset carried past `p :: l` is the offset carried past `l` starting
from `p`. -/
theorem lastOff_cons (a : Int) (p : Int × Int) (l : List (Int × Int)) :
    lastOff a (p :: l) = lastOff p.2 l := by
  cases l with
  | nil => simp [lastOff]
  | cons q l2 =>
    have h : (q :: l2).getLast?.isSome := by
      rw [List.getLast?_isSome]; simp
    obtain ⟨x, hx⟩ := Option.isSome_iff_exists.mp h
    simp [lastOff, List.getLast?_cons_cons, hx]

/-- A scan that rejects no element of `l` runs through `l` and continues on
`rest` carrying the last offset of `l`. -/
theorem scanOff_append (key : Int × Int → Int) (w : Int) :
    ∀ (l : List (Int × Int)) (a : Int) (rest : List (Int × Int)),
      (∀ p ∈ l, ¬ w < key p) →
      scanOff key a w (l ++ rest) = scanOff key (lastOff a l) w rest := by
  intro l
  induction l with
  | nil => intro a rest _; simp [lastOff]
  | cons p l2 ih =>
    intro a rest h
    have hp : ¬ w < key p := h p (by simp)
    simp only [List.cons_append, scanOff, if_neg hp, List.append_eq]
    rw [ih p.2 rest (fun q hq => h q (by simp [hq])), lastOff_cons]

/-- A scan that rejects no element returns the last offset. -/
theorem scanOff_all_le (key : Int × Int → Int) (w : Int) (l : List (Int × Int)) (a : Int)
    (h : ∀ p ∈ l, ¬ w < key p) : scanOff key a w l = lastOff a l := by
  have h2 := scanOff_append key w l a [] h
  simpa [scanOff] using h2

/-- Unfold one record of the offsets well-formedness check. -/
theorem offsetsOK_cons {a : Int} {p : Int × Int} {l : List (Int × Int)} :
    offsetsOK a (p :: l) = true ↔ (a + SEC ≤ p.2 ∧ offsetsOK p.2 l = true) := by
  simp [offsetsOK]

/-- Well-formed offsets only grow: the base offset bounds the final one. -/
theorem offsetsOK_lastOff_le : ∀ (l : List (Int × Int)) (a : Int),
    offsetsOK a l = true → a ≤ lastOff a l := by
  intro l
  induction l with
  | nil => intro a _; simp [lastOff]
  | cons p l2 ih =>
    intro a h
    rw [offsetsOK_cons] at h
    rw [lastOff_cons]
    have h2 := ih p.2 h.2
    have hsec : (0 : Int) < SEC := by norm_num [SEC]
    omega

/-- Well-formed offsets only grow: every member offset is bounded by the
final one. -/
theorem offsetsOK_mem_le : ∀ (l : List (Int × Int)) (a : Int), offsetsOK a l = true →
    ∀ p ∈ l, p.2 ≤ lastOff a l := by
  intro l
  induction l with
  | nil => simp
  | cons q l2 ih =>
    intro a h p hp
    rw [offsetsOK_cons] at h
    rw [lastOff_cons]
    rcases List.mem_cons.mp hp with rfl | hmem
    · exact offsetsOK_lastOff_le l2 p.2 h.2
    · exact ih q.2 h.2 p hmem

/-- Offsets well-formedness splits across an append, the right part starting
from the left part's final offset. -/
theorem offsetsOK_append : ∀ (l r : List (Int × Int)) (a : Int),
    offsetsOK a (l ++ r) = true →
    offsetsOK a l = true ∧ offsetsOK (lastOff a l) r = true := by
  intro l
  induction l with
  | nil => intro r a h; exact ⟨rfl, by simpa [lastOff] using h⟩
  | cons p l2 ih =>
    intro r a h
    rw [List.cons_append, offsetsOK_cons] at h
    obtain ⟨h1, h2⟩ := h
    obtain ⟨h3, h4⟩ := ih r p.2 h2
    refine ⟨offsetsOK_cons.mpr ⟨h1, h3⟩, ?_⟩
    rwa [lastOff_cons]

/-- The scan never returns less than the offset it starts from, when the
offsets are well-formed. -/
theorem scanOff_ge (key : Int × Int → Int) (w : Int) : ∀ (l : List (Int × Int)) (a : Int),
    offsetsOK a l = true → a ≤ scanOff key a w l := by
  intro l
  induction l with
  | nil => intro a _; simp [scanOff]
  | cons p l2 ih =>
    intro a h
    rw [offsetsOK_cons] at h
    simp only [scanOff]
    split
    · exact le_refl a
    · have h2 := ih p.2 h.2
      have hsec : (0 : Int) < SEC := by norm_num [SEC]
      omega

/-- Round-trip at the scan level: converting a UTC wall clock to TAI with the
UTC-keyed scan and looking it up with the TAI-keyed scan recovers the same
offset, both at the converted instant and one second before it. -/
theorem scan_roundtrip (w : Int) : ∀ (l : List (Int × Int)) (prev : Int),
    offsetsOK prev l = true →
    scanOff taiKey prev (w + scanOff utcKey prev w l) l = scanOff utcKey prev w l ∧
    scanOff taiKey prev (w + scanOff utcKey prev w l - SEC) l = scanOff utcKey prev w l := by
  intro l
  induction l with
  | nil => intro prev _; simp [scanOff]
  | cons p l2 ih =>
    intro prev h
    rw [offsetsOK_cons] at h
    have hsec : (0 : Int) < SEC := by norm_num [SEC]
    by_cases hw : w < utcKey p
    · have h1 : scanOff utcKey prev w (p :: l2) = prev := by
        simp [scanOff, if_pos hw]
      rw [h1]
      have hu : utcKey p = p.1 := rfl
      have hkey : w + prev < taiKey p := by
        simp only [taiKey]; rw [hu] at hw; omega
      have hkey2 : w + prev - SEC < taiKey p := by
        simp only [taiKey] at *; omega
      constructor
      · simp [scanOff, if_pos hkey]
      · simp [scanOff, if_pos hkey2]
    · have h1 : scanOff utcKey prev w (p :: l2) = scanOff utcKey p.2 w l2 := by
        simp [scanOff, if_neg hw]
      rw [h1]
      have hu : p.2 ≤ scanOff utcKey p.2 w l2 := scanOff_ge utcKey w l2 p.2 h.2
      have hup : utcKey p = p.1 := rfl
      rw [hup] at hw
      have hw1 : ¬ (w + scanOff utcKey p.2 w l2 < taiKey p) := by
        simp only [taiKey]; omega
      have hw2 : ¬ (w + scanOff utcKey p.2 w l2 - SEC < taiKey p) := by
        simp only [taiKey]; omega
      obtain ⟨ih1, ih2⟩ := ih p.2 h.2
      constructor
      · simp only [scanOff, if_neg hw1]; exact ih1
      · simp only [scanOff, if_neg hw2]; exact ih2

/-- On a table whose keys are in non-decreasing order, the scan computes the
offset of the last record whose key is at most the query. -/
theorem scanOff_eq_filter (key : Int × Int → Int) (w : Int) :
    ∀ (l : List (Int × Int)) (a : Int),
      List.Pairwise (fun p q => key p ≤ key q) l →
      scanOff key a w l =
        (((l.filter (fun p => decide (key p ≤ w))).getLast?).map (fun p => p.2)).getD a := by
  intro l
  induction l with
  | nil => intro a _; simp [scanOff]
  | cons p l2 ih =>
    intro a hpw
    rw [List.pairwise_cons] at hpw
    obtain ⟨hp, hpw2⟩ := hpw
    by_cases hw : w < key p
    · have hfilter : l2.filter (fun q => decide (key q ≤ w)) = [] := by
        rw [List.filter_eq_nil_iff]
        intro q hq
        have := hp q hq
        simp only [decide_eq_true_eq]
        omega
      have hnp : ¬ (key p ≤ w) := by omega
      simp [scanOff, if_pos hw, List.filter_cons, hnp, hfilter]
    · have hkp : key p ≤ w := by omega
      simp only [scanOff, if_neg hw]
      rw [ih p.2 hpw2]
      rw [List.filter_cons_of_pos (by simpa using hkp)]
      cases hfl : l2.filter (fun q => decide (key q ≤ w)) with
      | nil => simp
      | cons r rs =>
        have h : (r :: rs).getLast?.isSome := by
          rw [List.getLast?_isSome]; simp
        obtain ⟨x, hx⟩ := Option.isSome_iff_exists.mp h
        simp [List.getLast?_cons_cons, hx]

/-- The record-scan loop on a UTC-tagged query instant computes the pure
UTC-keyed scan; the fold flag is irrelevant. -/
theorem tai_offset_loop_utc (w : Int) (b : Bool) :
    ∀ (recs : List (Int × Int)) (old : Int),
      tai_offset_loop ⟨w, Tz.utc, b⟩ false old (embedRecs recs) =
        .ok (scanOff utcKey old w recs) := by
  intro recs
  induction recs with
  | nil => intro old; simp [embedRecs, tai_offset_loop, scanOff]
  | cons p l2 ih =>
    intro old
    by_cases hw : w < p.1
    · simp [embedRecs, tai_offset_loop, scanOff, dtLt, DT.absUS, Tz.utcoffset,
            utcKey, hw]
    · simp only [embedRecs, List.map_cons] at ih ⊢
      simp [tai_offset_loop, scanOff, dtLt, DT.absUS, Tz.utcoffset, utcKey, hw, ih]

/-- The record-scan loop on a TAI-tagged query instant computes the pure
TAI-keyed scan (thresholds `start + offset - 1 s`); the fold flag is
irrelevant. -/
theorem tai_offset_loop_tai (v : Int) (b : Bool) :
    ∀ (recs : List (Int × Int)) (old : Int),
      tai_offset_loop ⟨v, Tz.tai, b⟩ true old (embedRecs recs) =
        .ok (scanOff taiKey old v recs) := by
  intro recs
  induction recs with
  | nil => intro old; simp [embedRecs, tai_offset_loop, scanOff]
  | cons p l2 ih =>
    intro old
    by_cases hv : v < p.1 + p.2 - SEC
    · have hv2 : v < p.1 + (p.2 - SEC) := by omega
      simp [embedRecs, tai_offset_loop, scanOff, dtLt, dtAddUS, DT.absUS,
            Tz.utcoffset, taiKey, hv, hv2]
    · have hv2 : ¬ v < p.1 + (p.2 - SEC) := by omega
      simp only [embedRecs, List.map_cons] at ih ⊢
      simp [tai_offset_loop, scanOff, dtLt, dtAddUS, DT.absUS, Tz.utcoffset,
            taiKey, hv, hv2, ih]

/-- `tai_offset` with validity checking disabled, on a UTC-tagged instant over
an embedded table, is the pure UTC-keyed scan from offset zero. -/
theorem tai_offset_utc (recs : List (Int × Int)) (vu lu : Option DT) (w : Int) (b : Bool) :
    tai_offset ⟨embedRecs recs, vu, lu⟩ ⟨w, Tz.utc, b⟩ false =
      .ok (scanOff utcKey 0 w recs) := by
  cases recs with
  | nil => simp [tai_offset, datetime_is_tai, utc_datetime, embedRecs, scanOff]
  | cons p l2 =>
    have h := tai_offset_loop_utc w b (p :: l2) 0
    simp [tai_offset, datetime_is_tai, utc_datetime, embedRecs] at h ⊢
    exact h

/-- `tai_offset` with validity checking disabled, on a TAI-tagged instant over
an embedded table, is the pure TAI-keyed scan from offset zero. -/
theorem tai_offset_tai (recs : List (Int × Int)) (vu lu : Option DT) (v : Int) (b : Bool) :
    tai_offset ⟨embedRecs recs, vu, lu⟩ ⟨v, Tz.tai, b⟩ false =
      .ok (scanOff taiKey 0 v recs) := by
  cases recs with
  | nil => simp [tai_offset, datetime_is_tai, utc_datetime, embedRecs, scanOff]
  | cons p l2 =>
    have h := tai_offset_loop_tai v b (p :: l2) 0
    simp [tai_offset, datetime_is_tai, utc_datetime, embedRecs] at h ⊢
    exact h

/-- `to_tai` on a UTC-tagged instant: add the UTC-scan offset and tag TAI. -/
theorem to_tai_utc (recs : List (Int × Int)) (vu lu : Option DT) (w : Int) (b : Bool) :
    to_tai ⟨embedRecs recs, vu, lu⟩ ⟨w, Tz.utc, b⟩ false =
      .ok ⟨w + scanOff utcKey 0 w recs, Tz.tai, false⟩ := by
  simp [to_tai, datetime_is_tai, utc_datetime, tai_offset_utc, dtAddUS, DT.replaceTz]

/-- `is_leap_second` on a TAI-tagged instant: the offsets in force at the
instant and one second earlier differ. -/
theorem is_leap_second_tai (recs : List (Int × Int)) (vu lu : Option DT) (v : Int) (b : Bool) :
    is_leap_second ⟨embedRecs recs, vu, lu⟩ ⟨v, Tz.tai, b⟩ false =
      .ok (scanOff taiKey 0 v recs != scanOff taiKey 0 (v - SEC) recs) := by
  simp [is_leap_second, tai_offset_tai, dtSubUS]

/-- `tai_to_utc` on a TAI-tagged instant: subtract the TAI-scan offset, tag
UTC, and set fold exactly when the instant is the inserted leap second. -/
theorem tai_to_utc_tai (recs : List (Int × Int)) (vu lu : Option DT) (v : Int) (b : Bool) :
    tai_to_utc ⟨embedRecs recs, vu, lu⟩ ⟨v, Tz.tai, b⟩ false =
      .ok ⟨v - scanOff taiKey 0 v recs, Tz.utc,
           scanOff taiKey 0 v recs != scanOff taiKey 0 (v - SEC) recs⟩ := by
  by_cases h : scanOff taiKey 0 v recs = scanOff taiKey 0 (v - SEC) recs <;>
    simp [tai_to_utc, tai_offset_tai, is_leap_second_tai, dtSubUS, DT.replaceTz,
          DT.replaceFold, h]

/-- Shape of one accepted parse step: the record list grows exactly by the
line's contributed record (in input order), and a line that is not a `#h`
marker leaves the declared content hash unchanged. -/
theorem processLine_ok_shape (st st1 : LoaderState) (l : List Nat)
    (h : processLine st l = .ok st1) :
    st1.leap_seconds = st.leap_seconds ++ (dataRecordOf l).toList ∧
    ([35, 104].isPrefixOf (stripBytes l) = false → st1.content_hash = st.content_hash) := by
  by_cases h1 : [35, 104].isPrefixOf (stripBytes l) = true
  · simp only [processLine, dataRecordOf, h1, if_true] at h ⊢
    cases hc : parse_content_hash (stripBytes l) with
    | ok s =>
      rw [hc] at h
      injection h with h
      subst h
      simp [h1]
    | error e => rw [hc] at h; exact (Except.noConfusion h)
  · rw [Bool.not_eq_true] at h1
    by_cases h2 : [35, 64].isPrefixOf (stripBytes l) = true
    · simp only [processLine, dataRecordOf, h1, h2, Bool.false_eq_true, if_false,
                 if_true] at h ⊢
      cases hts : (splitWS (stripBytes l)).drop 1 with
      | nil => rw [hts] at h; exact (Except.noConfusion h)
      | cons tok rest =>
        rw [hts] at h
        dsimp only at h
        cases hp : parseIntBytes tok with
        | some v =>
          rw [hp] at h
          dsimp only at h
          injection h with h
          subst h
          simp
        | none => rw [hp] at h; dsimp only at h; exact (Except.noConfusion h)
    · rw [Bool.not_eq_true] at h2
      by_cases h3 : [35, 36].isPrefixOf (stripBytes l) = true
      · simp only [processLine, dataRecordOf, h1, h2, h3, Bool.false_eq_true,
                   if_false, if_true] at h ⊢
        cases hts : (splitWS (stripBytes l)).drop 1 with
        | nil => rw [hts] at h; exact (Except.noConfusion h)
        | cons tok rest =>
          rw [hts] at h
          dsimp only at h
          cases hp : parseIntBytes tok with
          | some v =>
            rw [hp] at h
            dsimp only at h
            injection h with h
            subst h
            simp
          | none => rw [hp] at h; dsimp only at h; exact (Except.noConfusion h)
      · rw [Bool.not_eq_true] at h3
        simp only [processLine, dataRecordOf, h1, h2, h3, Bool.false_eq_true,
                   if_false, or_self] at h ⊢
        cases hts : splitWS (stripBytes ((stripBytes l).takeWhile (fun b => b ≠ 35))) with
        | nil => rw [hts] at h; dsimp only at h; injection h with h; subst h; simp
        | cons a ts2 =>
          cases ts2 with
          | nil => rw [hts] at h; dsimp only at h; injection h with h; subst h; simp
          | cons bb ts3 =>
            cases ts3 with
            | nil =>
              rw [hts] at h
              dsimp only at h
              cases hpa : parseIntBytes a with
              | some wv =>
                rw [hpa] at h
                cases hpb : parseIntBytes bb with
                | some ov =>
                  rw [hpb] at h
                  dsimp only at h
                  injection h with h
                  subst h
                  simp [hpa, hpb]
                | none => rw [hpb] at h; dsimp only at h; exact (Except.noConfusion h)
              | none =>
                rw [hpa] at h
                dsimp only at h
                exact (Except.noConfusion h)
            | cons c ts4 =>
              rw [hts] at h; dsimp only at h; injection h with h; subst h; simp

/-- Accepted parsing appends exactly the records contributed by each line, in
input order. -/
theorem processLines_records : ∀ (lines : List (List Nat)) (st st1 : LoaderState),
    processLines st lines = .ok st1 →
    st1.leap_seconds = st.leap_seconds ++ lines.filterMap dataRecordOf := by
  intro lines
  induction lines with
  | nil =>
    intro st st1 h
    injection h with h
    subst h
    simp
  | cons l ls ih =>
    intro st st1 h
    simp only [processLines] at h
    cases hp : processLine st l with
    | error e => rw [hp] at h; exact (Except.noConfusion h)
    | ok st2 =>
      rw [hp] at h
      dsimp only at h
      have h2 := (processLine_ok_shape st st2 l hp).1
      rw [ih st2 st1 h, h2, List.filterMap_cons]
      cases dataRecordOf l <;> simp

/-- A stream with no `#h` marker line leaves the declared content hash as it
started. -/
theorem processLines_content_hash : ∀ (lines : List (List Nat)) (st st1 : LoaderState),
    (∀ l ∈ lines, [35, 104].isPrefixOf (stripBytes l) = false) →
    processLines st lines = .ok st1 → st1.content_hash = st.content_hash := by
  intro lines
  induction lines with
  | nil => intro st st1 _ h; injection h with h; subst h; rfl
  | cons l ls ih =>
    intro st st1 hno h
    simp only [processLines] at h
    cases hp : processLine st l with
    | error e => rw [hp] at h; exact (Except.noConfusion h)
    | ok st2 =>
      rw [hp] at h
      dsimp only at h
      have h2 := (processLine_ok_shape st st2 l hp).2 (hno l (by simp))
      rw [ih st2 st1 (fun q hq => hno q (by simp [hq])) h, h2]

set_option maxRecDepth 100000 in
/-- Claim C9, counterexample: a stream whose two data lines carry decreasing
timestamps — and whose `#h` digest is valid for its token sequence — is
accepted by the loader with hash checking on, and yields records whose starts
are not in strictly increasing order. -/
theorem c9_counterexample :
    from_open_file [strBytes "#h e536b0a8 50d158d5 27a78cf1 6ec440dd ee78a4f9",
                    strBytes "2 10", strBytes "1 11"] true =
      .ok ⟨[⟨⟨2 * SEC, Tz.utc, false⟩, 10 * SEC⟩, ⟨⟨1 * SEC, Tz.utc, false⟩, 11 * SEC⟩],
           Option.none, Option.none⟩ ∧
    ¬ List.Pairwise (fun a b : LeapSecondInfo => a.start.wall < b.start.wall)
        [⟨⟨2 * SEC, Tz.utc, false⟩, 10 * SEC⟩, ⟨⟨1 * SEC, Tz.utc, false⟩, 11 * SEC⟩] :=
  ⟨by decide, by decide⟩

/-- Claim C9 (amended): the loader stores records in input-line order — the
table's record list is exactly the records contributed by each accepted line
in stream order; no ordering of the `start` fields is checked or enforced, so
the records are strictly increasing only when the input's data lines are. -/
theorem c9_records_in_input_order (lines : List (List Nat)) (check_hash : Bool)
    (tbl : LeapSecondData) (h : from_open_file lines check_hash = .ok tbl) :
    tbl.leap_seconds = lines.filterMap dataRecordOf := by
  unfold from_open_file at h
  cases hp : processLines initLoaderState lines with
  | error e => rw [hp] at h; exact (Except.noConfusion h)
  | ok st =>
    rw [hp] at h
    dsimp only at h
    have hrec := processLines_records lines initLoaderState st hp
    have hleap : tbl.leap_seconds = st.leap_seconds := by
      cases check_hash with
      | false =>
        rw [if_neg (by simp)] at h
        injection h with h
        rw [← h]
      | true =>
        rw [if_pos rfl] at h
        cases hch : st.content_hash with
        | none => rw [hch] at h; exact (Except.noConfusion h)
        | some ch =>
          rw [hch] at h
          dsimp only at h
          by_cases hd : sha1hex st.hashed ≠ ch
          · rw [if_pos hd] at h; exact (Except.noConfusion h)
          · rw [if_neg hd] at h
            injection h with h
            rw [← h]
    rw [hleap, hrec]
    simp [initLoaderState]

set_option maxRecDepth 100000 in
/-- Claim C9 (amended), witness at a concrete accepted stream. -/
theorem c9_records_in_input_order_witness :
    ([⟨⟨2 * SEC, Tz.utc, false⟩, 10 * SEC⟩] : List LeapSecondInfo) =
      [strBytes "2 10"].filterMap dataRecordOf :=
  c9_records_in_input_order [strBytes "2 10"] false
    ⟨[⟨⟨2 * SEC, Tz.utc, false⟩, 10 * SEC⟩], Option.none, Option.none⟩ (by decide)

set_option maxRecDepth 100000 in
/-- Claim C6: loading with `check_hash=true`: a stream with no `#h` line fails
with `InvalidHash`; a computed digest differing from the declared one fails
with `InvalidHash`, the message reporting a truncated prefix of both digests;
the literal content "#h 0 0 0 0 0\n" fails with `InvalidHash` when checking,
and succeeds with an empty record set when not. -/
theorem c6_hash_verification :
    (∀ (lines : List (List Nat)) (st : LoaderState),
        (∀ l ∈ lines, [35, 104].isPrefixOf (stripBytes l) = false) →
        processLines initLoaderState lines = .ok st →
        from_open_file lines true = .error (LSError.invalidHash "No #h line found")) ∧
    (∀ (lines : List (List Nat)) (st : LoaderState) (ch : String),
        processLines initLoaderState lines = .ok st →
        st.content_hash = some ch →
        sha1hex st.hashed ≠ ch →
        from_open_file lines true = .error (LSError.invalidHash
          ("Hash didn\x27t match.  Expected " ++ String.take ch 8 ++
           "..., got " ++ String.take (sha1hex st.hashed) 8 ++ "..."))) ∧
    from_data (strBytes "#h 0 0 0 0 0\n") true = .error (LSError.invalidHash
      "Hash didn\x27t match.  Expected 00000000..., got da39a3ee...") ∧
    from_data (strBytes "#h 0 0 0 0 0\n") false = .ok ⟨[], Option.none, Option.none⟩ := by
  refine ⟨?_, ?_, by decide, by decide⟩
  · intro lines st hno hok
    have hch : st.content_hash = Option.none := by
      rw [processLines_content_hash lines initLoaderState st hno hok]; rfl
    unfold from_open_file
    rw [hok]
    dsimp only
    rw [if_pos rfl, hch]
  · intro lines st ch hok hch hne
    unfold from_open_file
    rw [hok]
    dsimp only
    rw [if_pos rfl, hch]
    dsimp only
    rw [if_pos hne]

set_option maxRecDepth 100000 in
/-- Claim C6, witness: a stream of one data line has no `#h` marker and is
rejected; the all-zero declared digest differs from the digest of the empty
token sequence and is rejected with both truncated digests reported. -/
theorem c6_hash_verification_witness :
    from_open_file [strBytes "3 15"] true =
      .error (LSError.invalidHash "No #h line found") ∧
    from_open_file [strBytes "#h 0 0 0 0 0"] true = .error (LSError.invalidHash
      "Hash didn\x27t match.  Expected 00000000..., got da39a3ee...") := by
  constructor
  · exact c6_hash_verification.1 [strBytes "3 15"]
      ⟨[⟨⟨3 * SEC, Tz.utc, false⟩, 15 * SEC⟩], Option.none, Option.none,
       [51, 49, 53], Option.none⟩ (by decide) (by decide)
  · have h := c6_hash_verification.2.1 [strBytes "#h 0 0 0 0 0"]
      ⟨[], Option.none, Option.none, [],
       some "0000000000000000000000000000000000000000"⟩
      "0000000000000000000000000000000000000000"
      (by decide) rfl (by decide)
    rw [h]
    decide

/-- Claim C1: on any well-formed leap-second table (each record's offset one
or more seconds above the previous), converting a UTC instant that is not
within one second after a leap boundary to TAI and back (validity checking
off) returns exactly the same instant, tagged UTC with the fold flag clear. -/
theorem c1_roundtrip (recs : List (Int × Int)) (vu lu : Option DT) (w : Int)
    (hok : offsetsOK 0 recs = true)
    (hnb : ∀ p ∈ recs, ¬ (p.1 ≤ w ∧ w < p.1 + SEC)) :
    (to_tai ⟨embedRecs recs, vu, lu⟩ ⟨w, Tz.utc, false⟩ false).bind
      (fun t => tai_to_utc ⟨embedRecs recs, vu, lu⟩ t false) =
      .ok ⟨w, Tz.utc, false⟩ := by
  rw [to_tai_utc]
  show tai_to_utc ⟨embedRecs recs, vu, lu⟩
        ⟨w + scanOff utcKey 0 w recs, Tz.tai, false⟩ false = _
  rw [tai_to_utc_tai]
  obtain ⟨h1, h2⟩ := scan_roundtrip w recs 0 hok
  rw [h1, h2]
  simp

/-- Claim C1, witness: round trip through the 1972 table at an instant away
from both boundaries. -/
theorem c1_roundtrip_witness :
    (to_tai lsd72 ⟨2280000000 * SEC, Tz.utc, false⟩ false).bind
      (fun t => tai_to_utc lsd72 t false) = .ok ⟨2280000000 * SEC, Tz.utc, false⟩ :=
  c1_roundtrip recs72 Option.none Option.none (2280000000 * SEC) (by decide) (by decide)

/-- Claim C2: with validity checking off, a UTC query returns the offset of
the last record whose start is at most the query (zero before the first
record, zero on an empty table), and on the 1972 table the four sample
queries return 0, 10 s, 10 s and 11 s. -/
theorem c2_utc_offset_lookup :
    (∀ (recs : List (Int × Int)) (vu lu : Option DT) (w : Int) (b : Bool),
        List.Pairwise (fun p q => p.1 < q.1) recs →
        tai_offset ⟨embedRecs recs, vu, lu⟩ ⟨w, Tz.utc, b⟩ false =
          .ok (lastOffsetAtUtc recs w)) ∧
    (∀ (vu lu : Option DT) (w : Int) (b : Bool),
        tai_offset ⟨[], vu, lu⟩ ⟨w, Tz.utc, b⟩ false = .ok 0) ∧
    tai_offset lsd72 ⟨2271974400 * SEC, Tz.utc, false⟩ false = .ok 0 ∧
    tai_offset lsd72 ⟨2272060800 * SEC, Tz.utc, false⟩ false = .ok (10 * SEC) ∧
    tai_offset lsd72 ⟨2287699200 * SEC, Tz.utc, false⟩ false = .ok (10 * SEC) ∧
    tai_offset lsd72 ⟨2287785600 * SEC, Tz.utc, false⟩ false = .ok (11 * SEC) := by
  refine ⟨?_, ?_, by decide, by decide, by decide, by decide⟩
  · intro recs vu lu w b hpw
    rw [tai_offset_utc, scanOff_eq_filter utcKey w recs 0 (hpw.imp (fun h => le_of_lt h))]
    rfl
  · intro vu lu w b
    have h := tai_offset_utc [] vu lu w b
    simpa [embedRecs, scanOff] using h

/-- Claim C2, witness: the characterization applied to the 1972 table. -/
theorem c2_utc_offset_lookup_witness :
    tai_offset lsd72 ⟨2280000000 * SEC, Tz.utc, false⟩ false =
      .ok (lastOffsetAtUtc recs72 (2280000000 * SEC)) :=
  c2_utc_offset_lookup.1 recs72 Option.none Option.none (2280000000 * SEC) false (by decide)

/-- Claim C3: with validity checking off, a TAI query compares against the
TAI-space thresholds `start + offset - 1 s`: it returns the offset of the
last record whose threshold is at most the query, zero when the query
precedes every threshold, and the last record's offset when no threshold
exceeds the query (extrapolation). -/
theorem c3_tai_offset_lookup :
    (∀ (recs : List (Int × Int)) (vu lu : Option DT) (v : Int) (b : Bool),
        List.Pairwise (fun p q => taiKey p ≤ taiKey q) recs →
        tai_offset ⟨embedRecs recs, vu, lu⟩ ⟨v, Tz.tai, b⟩ false =
          .ok (lastOffsetAtTai recs v)) ∧
    (∀ (recs : List (Int × Int)) (vu lu : Option DT) (v : Int) (b : Bool),
        (∀ p ∈ recs, v < taiKey p) →
        tai_offset ⟨embedRecs recs, vu, lu⟩ ⟨v, Tz.tai, b⟩ false = .ok 0) ∧
    (∀ (recs : List (Int × Int)) (vu lu : Option DT) (v : Int) (b : Bool),
        (∀ p ∈ recs, taiKey p ≤ v) →
        tai_offset ⟨embedRecs recs, vu, lu⟩ ⟨v, Tz.tai, b⟩ false =
          .ok (lastOff 0 recs)) := by
  refine ⟨?_, ?_, ?_⟩
  · intro recs vu lu v b hpw
    rw [tai_offset_tai, scanOff_eq_filter taiKey v recs 0 hpw]
    rfl
  · intro recs vu lu v b hlt
    rw [tai_offset_tai]
    cases recs with
    | nil => simp [scanOff]
    | cons p l2 => simp [scanOff, if_pos (hlt p (by simp))]
  · intro recs vu lu v b hle
    rw [tai_offset_tai, scanOff_all_le taiKey v recs 0 (fun p hp => not_lt.mpr (hle p hp))]

/-- Claim C3, witness: the characterization applied to the 1972 table at a
TAI instant. -/
theorem c3_tai_offset_lookup_witness :
    tai_offset lsd72 ⟨2280000010 * SEC, Tz.tai, false⟩ false =
      .ok (lastOffsetAtTai recs72 (2280000010 * SEC)) :=
  c3_tai_offset_lookup.1 recs72 Option.none Option.none (2280000010 * SEC) false (by decide)

/-- Claim C5: with `check_validity=true`, a table with no `valid_until` fails
every query with a `Validity` error, and a table whose `valid_until` the
(UTC-normalized) query exceeds fails with a `Validity` error naming the
`valid_until` date; the same query with `check_validity=false` succeeds, and
returns the last table offset when the instant is at or past every record
start. -/
theorem c5_validity_enforcement :
    (∀ (lsd : LeapSecondData) (when : DT), lsd.valid_until = Option.none →
        tai_offset lsd when true = .error (LSError.validity "Data validity unknown")) ∧
    (∀ (lsd : LeapSecondData) (when vu : DT), lsd.valid_until = some vu →
        dtGt (if datetime_is_tai when = true then when else utc_datetime when) vu =
          .ok true →
        tai_offset lsd when true =
          .error (LSError.validity ("Data only valid until " ++ fmtYMD vu))) ∧
    (∀ (recs : List (Int × Int)) (vu lu : Option DT) (w : Int) (b : Bool),
        (∀ p ∈ recs, p.1 ≤ w) →
        tai_offset ⟨embedRecs recs, vu, lu⟩ ⟨w, Tz.utc, b⟩ false =
          .ok (lastOff 0 recs)) := by
  refine ⟨?_, ?_, ?_⟩
  · intro lsd when hvu
    unfold tai_offset check_validity_msg
    rw [hvu]
    rfl
  · intro lsd when vu hvu hgt
    cases ht : datetime_is_tai when with
    | false =>
      rw [ht] at hgt
      simp only [Bool.false_eq_true, if_false] at hgt
      unfold tai_offset check_validity_msg
      rw [ht, hvu]
      simp only [Bool.false_eq_true, not_false_eq_true, if_true]
      rw [hgt]
    | true =>
      rw [ht] at hgt
      simp only [if_true] at hgt
      unfold tai_offset check_validity_msg
      rw [ht, hvu]
      simp only [not_true_eq_false, Bool.false_eq_true, if_false]
      rw [hgt]
      rfl
  · intro recs vu lu w b hle
    rw [tai_offset_utc,
        scanOff_all_le utcKey w recs 0
          (fun p hp => not_lt.mpr (hle p hp))]

/-- Claim C5, witness: the 1972 table declared valid until 2024-12-28 rejects
a 2024-12-29 query with checking on, names the boundary date, and with
checking off returns the last offset (11 s); a table with no `valid_until`
rejects every checked query. -/
theorem c5_validity_enforcement_witness :
    tai_offset lsd72 ⟨3944419200 * SEC, Tz.utc, false⟩ true =
      .error (LSError.validity "Data validity unknown") ∧
    tai_offset lsdVal ⟨3944419200 * SEC, Tz.utc, false⟩ true =
      .error (LSError.validity "Data only valid until 2024-12-28") ∧
    tai_offset lsdVal ⟨3944419200 * SEC, Tz.utc, false⟩ false = .ok (11 * SEC) := by
  refine ⟨?_, ?_, ?_⟩
  · exact c5_validity_enforcement.1 lsd72 ⟨3944419200 * SEC, Tz.utc, false⟩ rfl
  · have h := c5_validity_enforcement.2.1 lsdVal ⟨3944419200 * SEC, Tz.utc, false⟩
      ⟨3944332800 * SEC, Tz.utc, false⟩ rfl (by decide)
    rw [h]
    decide
  · have h := c5_validity_enforcement.2.2 recs72 (some ⟨3944332800 * SEC, Tz.utc, false⟩)
      Option.none (3944419200 * SEC) false (by decide)
    show tai_offset ⟨embedRecs recs72, some ⟨3944332800 * SEC, Tz.utc, false⟩,
      Option.none⟩ ⟨3944419200 * SEC, Tz.utc, false⟩ false = .ok (11 * SEC)
    rw [h]
    decide

/-- Claim C7: `is_leap_second` agrees between a UTC-supplied instant and the
TAI instant of the same physical moment (the fold flag adding the one-second
shift that makes the flagged :59 stand for :60), because the UTC form is
normalized to exactly that TAI instant before the offset comparison. -/
theorem c7_leap_detection_symmetry (lsd : LeapSecondData) (w : Int) (b : Bool) (t : DT)
    (h : to_tai lsd ⟨w, Tz.utc, b⟩ false = .ok t) :
    is_leap_second lsd ⟨w, Tz.utc, b⟩ false =
      is_leap_second lsd (dtAddUS t (if b then SEC else 0)) false := by
  have htz : t.tz = Tz.tai := by
    unfold to_tai at h
    rw [if_neg (by simp [datetime_is_tai])] at h
    simp only [utc_datetime] at h
    split at h
    · exact (Except.noConfusion h)
    · injection h with h
      rw [← h]
      rfl
  unfold is_leap_second
  rw [if_pos (by simp : (⟨w, Tz.utc, b⟩ : DT).tz ≠ Tz.tai),
      if_neg (by simp [dtAddUS, htz] : ¬ (dtAddUS t (if b then SEC else 0)).tz ≠ Tz.tai),
      h]
  rfl

/-- Claim C7, witness: agreement at the flagged repeated second before the
1972-07-01 boundary and its TAI image. -/
theorem c7_leap_detection_symmetry_witness :
    is_leap_second lsd72 ⟨2287785599 * SEC, Tz.utc, true⟩ false =
      is_leap_second lsd72 (dtAddUS ⟨2287785609 * SEC, Tz.tai, false⟩
        (if true then SEC else 0)) false :=
  c7_leap_detection_symmetry lsd72 (2287785599 * SEC) true
    ⟨2287785609 * SEC, Tz.tai, false⟩ (by decide)

/-- Claim C8: `tai_to_utc` rejects any instant tagged with a timescale other
than TAI (UTC-tagged or any other fixed-offset tag) with an `InvalidArgument`
error; an untagged (naive) instant is treated as TAI, giving the same result
as the TAI-tagged instant, and succeeds on an embedded table with validity
checking off. -/
theorem c8_tai_to_utc_arguments :
    (∀ (lsd : LeapSecondData) (w : Int) (b cv : Bool),
        tai_to_utc lsd ⟨w, Tz.utc, b⟩ cv =
          .error (LSError.invalidArgument "Input timestamp is not TAI or naive")) ∧
    (∀ (lsd : LeapSecondData) (w o : Int) (b cv : Bool),
        tai_to_utc lsd ⟨w, Tz.fixed o, b⟩ cv =
          .error (LSError.invalidArgument "Input timestamp is not TAI or naive")) ∧
    (∀ (lsd : LeapSecondData) (w : Int) (b cv : Bool),
        tai_to_utc lsd ⟨w, Tz.naive, b⟩ cv = tai_to_utc lsd ⟨w, Tz.tai, b⟩ cv) ∧
    (∀ (recs : List (Int × Int)) (vu lu : Option DT) (w : Int) (b : Bool),
        tai_to_utc ⟨embedRecs recs, vu, lu⟩ ⟨w, Tz.naive, b⟩ false =
          .ok ⟨w - scanOff taiKey 0 w recs, Tz.utc,
               scanOff taiKey 0 w recs != scanOff taiKey 0 (w - SEC) recs⟩) := by
  refine ⟨?_, ?_, ?_, ?_⟩
  · intro lsd w b cv
    rfl
  · intro lsd w o b cv
    rfl
  · intro lsd w b cv
    rfl
  · intro recs vu lu w b
    have h3 : tai_to_utc ⟨embedRecs recs, vu, lu⟩ ⟨w, Tz.naive, b⟩ false =
        tai_to_utc ⟨embedRecs recs, vu, lu⟩ ⟨w, Tz.tai, b⟩ false := rfl
    rw [h3, tai_to_utc_tai]

/-- The record-scan loop ignores the fold flag of the query instant
(datetime comparison is fold-blind). -/
theorem tai_offset_loop_fold (w : Int) (tz : Tz) (b1 b2 : Bool) (it : Bool) :
    ∀ (recs : List LeapSecondInfo) (old : Int),
      tai_offset_loop ⟨w, tz, b1⟩ it old recs = tai_offset_loop ⟨w, tz, b2⟩ it old recs := by
  intro recs
  induction recs with
  | nil => intro old; rfl
  | cons r rest ih =>
    intro old
    have hd : dtLt ⟨w, tz, b1⟩ (if it then dtAddUS r.start (r.tai_offset - SEC) else r.start)
        = dtLt ⟨w, tz, b2⟩ (if it then dtAddUS r.start (r.tai_offset - SEC) else r.start) := rfl
    simp only [tai_offset_loop]
    rw [hd]
    cases dtLt ⟨w, tz, b2⟩ (if it then dtAddUS r.start (r.tai_offset - SEC) else r.start) with
    | error e => rfl
    | ok bb =>
      cases bb with
      | false => exact ih r.tai_offset
      | true => rfl

/-- `tai_offset` ignores the fold flag of a UTC-tagged or naive query. -/
theorem tai_offset_fold_invariant (lsd : LeapSecondData) (w : Int) (cv : Bool) (tz : Tz)
    (htz : tz = Tz.utc ∨ tz = Tz.naive) (b1 b2 : Bool) :
    tai_offset lsd ⟨w, tz, b1⟩ cv = tai_offset lsd ⟨w, tz, b2⟩ cv := by
  rcases htz with rfl | rfl
  · have hc : check_validity_msg lsd ⟨w, Tz.utc, b1⟩ =
        check_validity_msg lsd ⟨w, Tz.utc, b2⟩ := rfl
    unfold tai_offset
    simp only [datetime_is_tai, utc_datetime]
    simp only [ite_self]
    simp only [hc, tai_offset_loop_fold w Tz.utc b1 b2 (decide (Tz.utc = Tz.tai))]
  · have hc : check_validity_msg lsd ⟨w, Tz.naive, b1⟩ =
        check_validity_msg lsd ⟨w, Tz.naive, b2⟩ := rfl
    unfold tai_offset
    simp only [datetime_is_tai, utc_datetime]
    simp only [ite_self]
    simp only [hc, tai_offset_loop_fold w Tz.naive b1 b2 (decide (Tz.naive = Tz.tai))]

/-- Claim C10: `to_tai` ignores the fold (repeated-second) flag on UTC-tagged
and naive instants — the flagged leap second and the ordinary :59 second one
physical second earlier convert to the same TAI instant. -/
theorem c10_to_tai_ignores_fold (lsd : LeapSecondData) (w : Int) (cv : Bool) (tz : Tz)
    (htz : tz = Tz.utc ∨ tz = Tz.naive) (b1 b2 : Bool) :
    to_tai lsd ⟨w, tz, b1⟩ cv = to_tai lsd ⟨w, tz, b2⟩ cv := by
  have hoff := tai_offset_fold_invariant lsd w cv tz htz b1 b2
  rcases htz with rfl | rfl
  · have hadd : ∀ off : Int, dtAddUS ⟨w, Tz.utc, b1⟩ off = dtAddUS ⟨w, Tz.utc, b2⟩ off :=
      fun _ => rfl
    unfold to_tai
    rw [if_neg (by simp [datetime_is_tai]), if_neg (by simp [datetime_is_tai])]
    simp only [utc_datetime]
    simp only [hoff, hadd]
  · have hadd : ∀ off : Int, dtAddUS ⟨w, Tz.naive, b1⟩ off = dtAddUS ⟨w, Tz.naive, b2⟩ off :=
      fun _ => rfl
    unfold to_tai
    rw [if_neg (by simp [datetime_is_tai]), if_neg (by simp [datetime_is_tai])]
    simp only [utc_datetime]
    simp only [hoff, hadd]

/-- Claim C10, witness: at the repeated second before the 1972-07-01 boundary,
the flagged and unflagged instants convert to the same TAI instant. -/
theorem c10_to_tai_ignores_fold_witness :
    to_tai lsd72 ⟨2287785599 * SEC, Tz.utc, true⟩ false =
      to_tai lsd72 ⟨2287785599 * SEC, Tz.utc, false⟩ false :=
  c10_to_tai_ignores_fold lsd72 (2287785599 * SEC) false Tz.utc (Or.inl rfl) true false

/-- Claim C4, counterexample: on the table with a leap second at wall second
2000, the flagged repeated second `t = 1999 s (fold set)` round-trips through
`to_tai` and `tai_to_utc` to the instant with the ambiguity flag CLEAR — not
set, as the claim requires — because `to_tai` ignores the fold flag. -/
theorem c4_counterexample :
    (to_tai lsdC4 ⟨1999 * SEC, Tz.utc, true⟩ false).bind
      (fun t => tai_to_utc lsdC4 t false) = .ok ⟨1999 * SEC, Tz.utc, false⟩ ∧
    ¬ ((to_tai lsdC4 ⟨1999 * SEC, Tz.utc, true⟩ false).bind
      (fun t => tai_to_utc lsdC4 t false) = .ok ⟨1999 * SEC, Tz.utc, true⟩) :=
  ⟨by decide, by decide⟩

/-- Claim C4 (amended): for a table with a genuine leap-second record
`(s, prev + 1 s)` (records at least two seconds apart and starts ordered) and
the flagged UTC instant `t` in the repeated second `[s - 1 s, s)`, `to_tai`
ignores the flag, so `τ = to_tai t` is the TAI image of the unflagged :59
second; `tai_to_utc τ` returns `t` with the ambiguity flag CLEAR;
`tai_to_utc (τ + 1 s)` — the TAI instant of the inserted leap second —
returns `t` with the flag SET; and `tai_to_utc (τ - 1 s)` returns the prior
civil second, unflagged, as the claim stated. -/
theorem c4_ambiguity_roundtrip_amended (pre post : List (Int × Int)) (s o : Int)
    (vu lu : Option DT) (w : Int)
    (hok : offsetsOK 0 (pre ++ (s, o) :: post) = true)
    (hleap : o = lastOff 0 pre + SEC)
    (hpre : ∀ p ∈ pre, p.1 + 2 * SEC ≤ s)
    (hpost : ∀ q ∈ post, s ≤ q.1)
    (hw1 : s - SEC ≤ w) (hw2 : w < s) :
    to_tai ⟨embedRecs (pre ++ (s, o) :: post), vu, lu⟩ ⟨w, Tz.utc, true⟩ false =
      .ok ⟨w + lastOff 0 pre, Tz.tai, false⟩ ∧
    tai_to_utc ⟨embedRecs (pre ++ (s, o) :: post), vu, lu⟩
        ⟨w + lastOff 0 pre, Tz.tai, false⟩ false =
      .ok ⟨w, Tz.utc, false⟩ ∧
    tai_to_utc ⟨embedRecs (pre ++ (s, o) :: post), vu, lu⟩
        ⟨w + lastOff 0 pre + SEC, Tz.tai, false⟩ false =
      .ok ⟨w, Tz.utc, true⟩ ∧
    tai_to_utc ⟨embedRecs (pre ++ (s, o) :: post), vu, lu⟩
        ⟨w + lastOff 0 pre - SEC, Tz.tai, false⟩ false =
      .ok ⟨w - SEC, Tz.utc, false⟩ := by
  have hsec : (0 : Int) < SEC := by norm_num [SEC]
  obtain ⟨hokPre, hokRest⟩ := offsetsOK_append pre ((s, o) :: post) 0 hok
  rw [offsetsOK_cons] at hokRest
  obtain ⟨hoge, hokPost⟩ := hokRest
  have hmem := offsetsOK_mem_le pre 0 hokPre
  set prev := lastOff 0 pre with hprev
  have hskipU : ∀ p ∈ pre, ¬ w < utcKey p := by
    intro p hp
    have h1 := hpre p hp
    simp only [utcKey]
    omega
  have hskipT1 : ∀ p ∈ pre, ¬ (w + prev) < taiKey p := by
    intro p hp
    have h1 := hpre p hp
    have h2 := hmem p hp
    simp only [taiKey]
    omega
  have hskipT2 : ∀ p ∈ pre, ¬ (w + prev - SEC) < taiKey p := by
    intro p hp
    have h1 := hpre p hp
    have h2 := hmem p hp
    simp only [taiKey]
    omega
  have hskipT3 : ∀ p ∈ pre, ¬ (w + prev - SEC - SEC) < taiKey p := by
    intro p hp
    have h1 := hpre p hp
    have h2 := hmem p hp
    simp only [taiKey]
    omega
  have hskipT4 : ∀ p ∈ pre, ¬ (w + prev + SEC) < taiKey p := by
    intro p hp
    have h1 := hpre p hp
    have h2 := hmem p hp
    simp only [taiKey]
    omega
  have hu : scanOff utcKey 0 w (pre ++ (s, o) :: post) = prev := by
    rw [scanOff_append utcKey w pre 0 _ hskipU]
    simp only [scanOff]
    rw [if_pos (show w < utcKey (s, o) by simpa [utcKey] using hw2)]
  have hv1 : scanOff taiKey 0 (w + prev) (pre ++ (s, o) :: post) = prev := by
    rw [scanOff_append taiKey _ pre 0 _ hskipT1]
    simp only [scanOff]
    rw [if_pos (show w + prev < taiKey (s, o) by simp [taiKey]; omega)]
  have hv2 : scanOff taiKey 0 (w + prev - SEC) (pre ++ (s, o) :: post) = prev := by
    rw [scanOff_append taiKey _ pre 0 _ hskipT2]
    simp only [scanOff]
    rw [if_pos (show w + prev - SEC < taiKey (s, o) by simp [taiKey]; omega)]
  have hv4 : scanOff taiKey 0 (w + prev - SEC - SEC) (pre ++ (s, o) :: post) = prev := by
    rw [scanOff_append taiKey _ pre 0 _ hskipT3]
    simp only [scanOff]
    rw [if_pos (show w + prev - SEC - SEC < taiKey (s, o) by simp [taiKey]; omega)]
  have hv3 : scanOff taiKey 0 (w + prev + SEC) (pre ++ (s, o) :: post) = o := by
    rw [scanOff_append taiKey _ pre 0 _ hskipT4]
    simp only [scanOff]
    rw [if_neg (show ¬ w + prev + SEC < taiKey (s, o) by simp [taiKey]; omega)]
    cases post with
    | nil => simp [scanOff]
    | cons q qs =>
      have hq1 : s ≤ q.1 := hpost q (by simp)
      have hq2 : o + SEC ≤ q.2 := (offsetsOK_cons.mp hokPost).1
      simp only [scanOff]
      rw [if_pos (show w + prev + SEC < taiKey q by simp only [taiKey]; omega)]
  have hv1x : scanOff taiKey 0 (w + prev + SEC - SEC) (pre ++ (s, o) :: post) = prev := by
    rw [show w + prev + SEC - SEC = w + prev by ring]
    exact hv1
  refine ⟨?_, ?_, ?_, ?_⟩
  · rw [to_tai_utc, hu]
  · rw [tai_to_utc_tai, hv1, hv2]
    simp
  · rw [tai_to_utc_tai, hv3, hv1x]
    have hwall : w + prev + SEC - o = w := by omega
    have hbne : (o != prev) = true := by
      rw [bne_iff_ne]
      omega
    rw [hwall, hbne]
  · rw [tai_to_utc_tai, hv2, hv4]
    have hwall : w + prev - SEC - prev = w - SEC := by ring
    rw [hwall]
    simp

/-- Claim C4 (amended), witness: the concrete table with a leap second at wall
second 2000 (offset 10 s before, 11 s after) and the flagged instant 1999 s. -/
theorem c4_ambiguity_roundtrip_amended_witness :
    to_tai lsdC4 ⟨1999 * SEC, Tz.utc, true⟩ false = .ok ⟨2009 * SEC, Tz.tai, false⟩ ∧
    tai_to_utc lsdC4 ⟨2009 * SEC, Tz.tai, false⟩ false = .ok ⟨1999 * SEC, Tz.utc, false⟩ ∧
    tai_to_utc lsdC4 ⟨2010 * SEC, Tz.tai, false⟩ false = .ok ⟨1999 * SEC, Tz.utc, true⟩ ∧
    tai_to_utc lsdC4 ⟨2008 * SEC, Tz.tai, false⟩ false = .ok ⟨1998 * SEC, Tz.utc, false⟩ := by
  have h := c4_ambiguity_roundtrip_amended [(1000 * SEC, 10 * SEC)] [] (2000 * SEC)
    (11 * SEC) Option.none Option.none (1999 * SEC) (by decide) (by decide)
    (by decide) (by decide) (by decide) (by decide)
  exact h
